import Mathlib

/-!
Verification development for the DSLP non-autoregressive translation models
(`fairseq/models/nat/nat_sd_glat_anneal.py` and `fairseq/models/nat/nat_ctc_sd.py`).

Tensors of token ids are modelled as `List ℕ` (one sequence position per entry;
batched tensors as `List (List ℕ)`), probabilities and logits as rationals, and
the per-position elementwise torch operations (`masked_fill`, `+`, comparisons)
as `List.zipWith` combinators.
-/

namespace DSLP

/-- Elementwise model of `tensor.masked_fill(mask, v)`: where the mask is `true`
the value is replaced by `v`, elsewhere the original entry is kept. -/
def maskedFill (xs : List ℕ) (mask : List Bool) (v : ℕ) : List ℕ :=
  List.zipWith (fun x m => if m then v else x) xs mask

/-- Glancing decoder input, `nat_sd_glat_anneal.py` line 169:
`prev_output_tokens.masked_fill(keep_word_mask, 0) + tgt_tokens.masked_fill(~keep_word_mask, 0)`. -/
def glatPrevOutputTokens (prev tgt : List ℕ) (keepWordMask : List Bool) : List ℕ :=
  List.zipWith (fun a b => a + b) (maskedFill prev keepWordMask 0)
    (maskedFill tgt (keepWordMask.map (fun b => !b)) 0)

/-- Glancing training target, `nat_sd_glat_anneal.py` line 170:
`tgt_tokens.masked_fill(keep_word_mask, self.pad)`. -/
def glatTgtTokens (tgt : List ℕ) (keepWordMask : List Bool) (pad : ℕ) : List ℕ :=
  maskedFill tgt keepWordMask pad

/-- Per-example agreement count, `nat_sd_glat_anneal.py` line 164:
`((pred_tokens == tgt_tokens) & nonpad_positions).sum(1)`. -/
def sameNum (pred tgt : List ℕ) (pad : ℕ) : ℕ :=
  (pred.zip tgt).countP (fun pt => decide (pt.1 = pt.2) && decide (pt.2 ≠ pad))

/-- Per-example count of non-pad target positions, `nat_sd_glat_anneal.py` line 165. -/
def seqLen (tgt : List ℕ) (pad : ℕ) : ℕ :=
  tgt.countP (fun t => decide (t ≠ pad))

/-- Per-example glancing keep probability, `nat_sd_glat_anneal.py` line 166:
`(seq_lens - same_num) / seq_lens * glat['context_p']`. -/
def keepProb (pred tgt : List ℕ) (pad : ℕ) (contextP : ℚ) : ℚ :=
  (((seqLen tgt pad : ℚ) - (sameNum pred tgt pad : ℚ)) / (seqLen tgt pad : ℚ)) * contextP

/-- Symbolic expression for the hidden-state dataflow of
`NATransformerDecoder.extract_features` (`nat_sd_glat_anneal.py` lines 394-496).
Constructors record the tensor operations the layer loop applies: `init` is the
embedded input x after `forward_embedding`, `outputLayer` the shared output
head, `yhatSoft t l` the temperature-`t` softmax of logits `l` multiplied by the
embedding table (line 455-457), `yhatHard l` the embedding of the argmax of `l`
(line 460), `blend x y` the sum `(x + y) / sqrt 2` (line 464), `blendW p x y`
the weighted variant `(p * x + (1 - p) * y) / sqrt (p ^ 2 + (1 - p) ^ 2)`
(lines 466-468), and `layerApp i n` decoder layer `i` applied to input `n`
(line 470). -/
inductive DExpr where
  | init : DExpr
  | outputLayer : DExpr → DExpr
  | yhatSoft : ℚ → DExpr → DExpr
  | yhatHard : DExpr → DExpr
  | blend : DExpr → DExpr → DExpr
  | blendW : ℚ → DExpr → DExpr → DExpr
  | layerApp : ℕ → DExpr → DExpr
deriving DecidableEq, Repr

/-- Configuration of the decoder feature loop: `self.layers` count,
`args.hard_argmax`, `args.yhat_temp`, the optional `feed_forward_weights` list
and the optional `early_exit` argument. -/
structure EFConfig where
  numLayers : ℕ
  hardArgmax : Bool
  yhatTemp : ℚ
  feedForwardWeights : Option (List ℚ)
  earlyExit : Option ℕ

/-- Running state of the layer loop: current hidden state `x`, the accumulated
`all_layer_output_logits`, and the inputs fed to each executed attention layer. -/
structure EFState where
  x : DExpr
  logits : List DExpr
  fedInputs : List DExpr

/-- The feedback signal `y_hat` computed from the current state, lines 453-460. -/
def efYhat (cfg : EFConfig) (x : DExpr) : DExpr :=
  if cfg.hardArgmax then DExpr.yhatHard (DExpr.outputLayer x)
  else DExpr.yhatSoft cfg.yhatTemp (DExpr.outputLayer x)

/-- The blended hidden state `new_x` fed to layer `i`, lines 463-468. -/
def efNewX (cfg : EFConfig) (x : DExpr) (i : ℕ) : DExpr :=
  match cfg.feedForwardWeights with
  | none => DExpr.blend x (efYhat cfg x)
  | some ws => DExpr.blendW (ws.getD i 0) x (efYhat cfg x)

/-- One iteration of the decoder-layer loop body, lines 452-484: compute the
logits of the current state, append them to `all_layer_output_logits` only when
`i > 0` (line 461-462), blend, and run the attention layer. -/
def efStep (cfg : EFConfig) (s : EFState) (i : ℕ) : EFState :=
  { x := DExpr.layerApp i (efNewX cfg s.x i),
    logits := if 0 < i then s.logits ++ [DExpr.outputLayer s.x] else s.logits,
    fedInputs := s.fedInputs ++ [efNewX cfg s.x i] }

/-- Whether the loop continues at layer index `i` (the early-exit `break` of
lines 450-451). -/
def efKeep (cfg : EFConfig) (i : ℕ) : Bool :=
  match cfg.earlyExit with
  | none => true
  | some e => decide (i < e)

/-- The decoder-layer loop with the early-exit break, lines 448-484. -/
def efLoop (cfg : EFConfig) : List ℕ → EFState → EFState
  | [], s => s
  | i :: rest, s => if efKeep cfg i then efLoop cfg rest (efStep cfg s i) else s

/-- `extract_features`: run the layer loop over indices `0 .. numLayers - 1`
starting from the embedded input, then append one trailing logits entry
computed from the final hidden state (line 486). -/
def extractFeatures (cfg : EFConfig) : EFState :=
  let s := efLoop cfg (List.range cfg.numLayers)
    { x := DExpr.init, logits := [], fedInputs := [] }
  { s with logits := s.logits ++ [DExpr.outputLayer s.x] }

/-- Number of decoder layers actually executed given the early exit. -/
def layersRun (cfg : EFConfig) : ℕ :=
  match cfg.earlyExit with
  | none => cfg.numLayers
  | some e => min cfg.numLayers e

/-- Recognizes the two blend operations of lines 463-468. -/
def isBlend : DExpr → Bool
  | DExpr.blend _ _ => true
  | DExpr.blendW _ _ _ => true
  | _ => false

/-- Special token ids of the target dictionary used when building skeletons. -/
structure SkelCfg where
  pad : ℕ
  bos : ℕ
  eos : ℕ
  unk : ℕ

/-- Model of `tensor.max()` over a batch of lengths (all call sites pass a
nonempty batch). -/
def tensorMax (l : List ℕ) : ℕ := l.foldr max 0

/-- One skeleton row, following the exact write order of
`initialize_output_tokens_by_src_tokens` (`nat_ctc_sd.py` lines 513-520) and of
`regenerate_length_beam` (lines 562-569): start from a `pad`-filled row of
width `maxLen`, fill `unk` where `arange(maxLen) < L` (`masked_fill_`), write
`bos` at column 0, then scatter `eos` at column `L - 1`. -/
def skeletonRow (cfg : SkelCfg) (maxLen L : ℕ) : List ℕ :=
  (((List.zipWith (fun j x => if j < L then cfg.unk else x)
      (List.range maxLen) (List.replicate maxLen cfg.pad)).set 0 cfg.bos).set
    (L - 1) cfg.eos)

/-- Batch skeleton construction shared by the non-copy branch of
`initialize_output_tokens_by_src_tokens` and by `regenerate_length_beam`:
`max_length` is the maximum of the (already clamped) per-example lengths. -/
def buildLengthSkeletons (cfg : SkelCfg) (lens : List ℕ) : List (List ℕ) :=
  lens.map (skeletonRow cfg (tensorMax lens))

/-- Per-example clamped skeleton length of the non-copy branch:
`count_nonpad(src_b) * src_upsample_scale` clamped below at 2 (the in-place
`clamp_(min=2)` of `nat_ctc_sd.py` line 510 rewrites `length_tgt` itself, so
every later use sees the clamped value). -/
def clampedSrcLen (cfg : SkelCfg) (scale : ℕ) (row : List ℕ) : ℕ :=
  max 2 ((row.countP (fun t => decide (t ≠ cfg.pad))) * scale)

/-- `initialize_output_tokens_by_src_tokens` (`nat_ctc_sd.py` lines 503-531).
`copySrcToken` is `args.copy_src_token`, `scale` is `args.src_upsample_scale`
(the `> 2` and `≤ 2` branches of lines 506-509 multiply identically and are
collapsed).  In the copy branch with `scale ≤ 1` the source tokens are returned
unchanged; with `scale > 1` each source token is repeated `scale` times
contiguously (`_us`, lines 526-529). -/
def initializeOutputTokensBySrcTokens (cfg : SkelCfg) (copySrcToken : Bool)
    (scale : ℕ) (srcTokens : List (List ℕ)) : List (List ℕ) :=
  if ¬copySrcToken then
    buildLengthSkeletons cfg (srcTokens.map (clampedSrcLen cfg scale))
  else if scale ≤ 1 then srcTokens
  else srcTokens.map (fun r => (r.map (List.replicate scale)).flatten)

/-- The flattened candidate lengths of `regenerate_length_beam`
(`nat_ctc_sd.py` lines 552-558): for each example of current non-pad length
`L`, the `beam_size` lengths `L + arange(beam_size) - beam_size // 2`, clamped
below at 2 (`view(-1).clamp_(min=2)`). -/
def regenLengthBeamLengths (curLens : List ℕ) (beamSize : ℕ) : List ℕ :=
  (curLens.map (fun L : ℕ => (List.range beamSize).map
      (fun i : ℕ => (max 2 ((L : ℤ) + (i : ℤ) - ((beamSize / 2 : ℕ) : ℤ))).toNat))).flatten

/-- `regenerate_length_beam` (`nat_ctc_sd.py` lines 550-577): rebuild skeletons
from the flattened candidate length list. -/
def regenerateLengthBeam (cfg : SkelCfg) (outputTokens : List (List ℕ))
    (beamSize : ℕ) : List (List ℕ) :=
  buildLengthSkeletons cfg
    (regenLengthBeamLengths
      (outputTokens.map (fun r => r.countP (fun t => decide (t ≠ cfg.pad)))) beamSize)

/-- Modelled from the spec's words, for comparison with the code: the claim
says the candidate lengths are the current length plus each offset in
`-(beam_size//2) .. +(beam_size//2 - 1)`, each clamped below at 2. -/
def specClaimBeamLengths (curLen : ℕ) (beamSize : ℕ) : List ℕ :=
  (List.range (beamSize / 2 + beamSize / 2)).map
    (fun i : ℕ => (max 2 ((curLen : ℤ) + (i : ℤ) - ((beamSize / 2 : ℕ) : ℤ))).toNat)

/-- Python negative-index list access (`inference_decoder_layer` defaults
to -1, the last entry of the per-layer logits list). -/
def pyGet {α : Type} (l : List α) (i : ℤ) (d : α) : α :=
  if 0 ≤ i then l.getD i.toNat d else l.getD (l.length - (-i).toNat) d

/-- Helper for `vocabArgmax`: scan the remaining entries keeping the best
(value, index) pair, preferring the earlier index on ties. -/
def argmaxAux : List ℚ → ℚ × ℕ → ℕ → ℚ × ℕ
  | [], best, _ => best
  | p :: rest, best, idx =>
    argmaxAux rest (if best.1 < p then (p, idx) else best) (idx + 1)

/-- torch `tensor.max(-1)` over one vocabulary row: the maximal value and the
first index attaining it. -/
def vocabArgmax (row : List ℚ) : ℚ × ℕ :=
  match row with
  | [] => (0, 0)
  | p :: rest => argmaxAux rest (p, 0) 1

/-- Store of tensors addressed by object identity: a `DecoderOut` record holds
references into this store, and the in-place tensor methods
(`masked_scatter_`) overwrite store entries. -/
structure TensorHeap where
  toks : List (List (List ℕ))
  scores : List (List (List ℚ))

/-- The structural fields of the `DecoderOut` named tuple that `forward_decoder`
reads: references (object identities) of the token and score tensors, plus the
step counter. -/
structure DecoderOutR where
  outputTokens : ℕ
  outputScores : ℕ
  step : ℕ

/-- `output_tokens.masked_scatter_(output_masks, _tokens[output_masks])`
(`nat_sd_glat_anneal.py` line 278): where the cell is not pad, it is replaced
by the argmax token of that cell's logits; pad cells are kept. -/
def maskedScatterTokens (pad : ℕ) (toks : List (List ℕ))
    (logits : List (List (List ℚ))) : List (List ℕ) :=
  List.zipWith (fun (trow : List ℕ) (lrow : List (List ℚ)) =>
    List.zipWith (fun t l => if t ≠ pad then (vocabArgmax l).2 else t) trow lrow)
    toks logits

/-- `output_scores.masked_scatter_(output_masks, _scores[output_masks])`
(line 279): where the token cell is not pad, the score is replaced by the max
logit of that cell; pad cells keep their old score. -/
def maskedScatterScores (pad : ℕ) (toks : List (List ℕ)) (scores : List (List ℚ))
    (logits : List (List (List ℚ))) : List (List ℚ) :=
  List.zipWith (fun (p : List ℕ × List ℚ) (lrow : List (List ℚ)) =>
    List.zipWith (fun (q : ℕ × ℚ) l => if q.1 ≠ pad then (vocabArgmax l).1 else q.2)
      (p.1.zip p.2) lrow)
    (toks.zip scores) logits

/-- `NATransformerModel.forward_decoder` of `nat_sd_glat_anneal.py` lines
257-288 (the `plain_ctc` path of `nat_ctc_sd.py` lines 433-447 is identical),
with the decoder call abstracted by its result `outputLogitsList` and the
`history is None` case: the masked scatters mutate the heap entries referenced
by the input state in place, and `_replace` returns a record holding the same
references. -/
def forwardDecoderGlatAnneal (h : TensorHeap) (s : DecoderOutR)
    (outputLogitsList : List (List (List (List ℚ))))
    (inferenceDecoderLayer : ℤ) (pad : ℕ) : TensorHeap × DecoderOutR :=
  let outputTokens := h.toks.getD s.outputTokens []
  let outputScores := h.scores.getD s.outputScores []
  let outputLogits := pyGet outputLogitsList inferenceDecoderLayer []
  let newToks := maskedScatterTokens pad outputTokens outputLogits
  let newScores := maskedScatterScores pad outputTokens outputScores outputLogits
  ({ toks := h.toks.set s.outputTokens newToks,
     scores := h.scores.set s.outputScores newScores },
   { outputTokens := s.outputTokens, outputScores := s.outputScores,
     step := s.step })

/-- Python exceptions that `NATransformerModel.forward` of
`nat_sd_glat_anneal.py` can raise in its glancing block. -/
inductive PyExc where
  | nameError : PyExc
  | notImplementedError : PyExc
deriving DecidableEq, Repr

/-- Control-flow model of `NATransformerModel.forward` of
`nat_sd_glat_anneal.py` lines 151-230 with respect to the `glat` argument:
`glatKeys` is `none` when `glat is None` and otherwise lists the dict's keys
(an empty dict is falsy, like `None`, for the `if glat and tgt_tokens is not
None` test of line 153).  `all_layer_weight` is assigned only inside the
`"context_p" in glat` branch; the `"schedule" in glat` branch raises
`NotImplementedError` (line 205); and in training mode the decoder call of
line 219 references `all_layer_weight`, raising `NameError`
(`UnboundLocalError`) when it was never assigned.  Runs that reach the loss
dictionary are `ok`. -/
def glatAnnealForwardOutcome (training : Bool) (glatKeys : Option (List String))
    (tgtIsNone : Bool) : Except PyExc Unit :=
  if (glatKeys.isSome = true ∧ glatKeys.getD [] ≠ [] ∧ tgtIsNone = false) ∧
      "context_p" ∈ glatKeys.getD [] then
    Except.ok ()
  else if (glatKeys.isSome = true ∧ glatKeys.getD [] ≠ [] ∧ tgtIsNone = false) ∧
      "schedule" ∈ glatKeys.getD [] then
    Except.error PyExc.notImplementedError
  else if training = true then
    Except.error PyExc.nameError
  else
    Except.ok ()

/-- Gather of one sampled layer id per flattened position, `nat_ctc_sd.py`
lines 361-364: position `j` of the synthetic mixed-layer tensor takes row `j`
of layer `sampledIds[j]` (the batch and time dimensions are flattened by the
`view(num_decoder_layer, -1, num_vocab)` of line 362). -/
def gatherLayers (layers : List (List (List ℚ))) (ids : List ℕ) : List (List ℚ) :=
  (List.range ids.length).map (fun j => (layers.getD (ids.getD j 0) []).getD j [])

/-- The cross-layer sampling branch of `NATransformerModel.forward`
(`nat_ctc_sd.py` lines 348-381).  The `torch.randint` draws are supplied as the
oracle `sampledIds` (one id list per sample, so `N_SAMPLE = sampledIds.length`),
and the per-sample call `sequence_ctc_loss_with_logits(gather_logits, ...)` is
abstracted as the function `ctcLossOf` of the gathered logits (its other
arguments are fixed across samples).  After the `torch.stack` of line 349 the
name `output_logits_list` denotes the stacked tensor, so the final division
`all_sample_ctc_loss / len(output_logits_list)` of line 380 divides by the
number of decoder layers `layers.length`, not by `N_SAMPLE`. -/
def crossLayerSampleCtcLoss (layers : List (List (List ℚ)))
    (sampledIds : List (List ℕ)) (ctcLossOf : List (List ℚ) → ℚ) : ℚ :=
  ((sampledIds.map (fun ids => ctcLossOf (gatherLayers layers ids))).sum) /
    (layers.length : ℚ)

/-- Modelled from the spec's words, for comparison with the code: the claim
says the returned loss is the average of the `N` sampled mixed-layer CTC
losses, i.e. their sum divided by `N = sampledIds.length`. -/
def specCrossLayerAvg (layers : List (List (List ℚ)))
    (sampledIds : List (List ℕ)) (ctcLossOf : List (List ℚ) → ℚ) : ℚ :=
  ((sampledIds.map (fun ids => ctcLossOf (gatherLayers layers ids))).sum) /
    (sampledIds.length : ℚ)

/-- Merge adjacent repeated labels (first half of the CTC collapse). -/
def dedupAdj : List ℕ → List ℕ
  | [] => []
  | [a] => [a]
  | a :: b :: rest => if a = b then dedupAdj (b :: rest) else a :: dedupAdj (b :: rest)

/-- The CTC labeling function: collapse adjacent repeats, then remove blanks. -/
def ctcCollapse (blank : ℕ) (path : List ℕ) : List ℕ :=
  (dedupAdj path).filter (fun c => decide (c ≠ blank))

/-- All label paths of length `T` over the vocabulary `0 .. V - 1`. -/
def allPaths (V : ℕ) : ℕ → List (List ℕ)
  | 0 => [[]]
  | T + 1 => ((List.range V).map (fun c => (allPaths V T).map (fun p => c :: p))).flatten

/-- Probability of one label path under the per-timestep distributions
`probs`. -/
def pathProb (probs : List (List ℚ)) (path : List ℕ) : ℚ :=
  (List.zipWith (fun row c => row.getD c 0) probs path).prod

/-- Total CTC probability that the per-timestep distributions `probs` emit
`target`: the sum over all label paths of length `probs.length` whose collapse
equals `target`.  This is the mathematical semantics of the external
`torch.nn.functional.ctc_loss` collaborator called on line 292/302: the
per-example torch loss is `-log` of this probability, and `zero_infinity=True`
replaces the infinite loss of an infeasible alignment (probability 0) by 0. -/
def ctcProb (probs : List (List ℚ)) (blank : ℕ) (target : List ℕ) : ℚ :=
  (((allPaths (probs.headD []).length probs.length).filter
      (fun p => decide (ctcCollapse blank p = target))).map (pathProb probs)).sum

/-- `targets[target_mask]` restricted to one row: the row's mask-selected
tokens (`F.ctc_loss` recovers each example's slice of the flattened targets
via `target_lengths`). -/
def maskedSelect (row : List ℕ) (mask : List Bool) : List ℕ :=
  (row.zip mask).filterMap (fun p => if p.2 then some p.1 else none)

/-- Result of `sequence_ctc_loss_with_logits`, modelled at probability level:
the per-example CTC feasibility probabilities (the per-example torch loss is
`-log p`, and the `zero_infinity=True` policy maps `p = 0` to loss 0 instead
of `+inf`), plus `n_invalid_samples`, the number of examples whose logit
length is shorter than their target length (line 313) — reported via a
non-fatal warning (line 316) while the batch value is still returned: the
`raise ValueError` of line 319 is commented out in the source. -/
structure CtcBatchOut where
  perExampleProb : List ℚ
  nInvalid : ℕ

/-- `sequence_ctc_loss_with_logits` (`nat_ctc_sd.py` lines 262-324) with
`label_smoothing = 0`, modelled in probability space (the rows of `probs` are
`softmax(logits)`; torch computes the same quantity in log space): per-example
lengths are the mask counts (lines 277 and 282), `F.ctc_loss` truncates each
example's emissions to its `input_length`, and the flattened mask-selected
targets are split back per example by `target_lengths`. -/
def sequenceCtcLossWithLogits (probs : List (List (List ℚ)))
    (logitMask : List (List Bool)) (targets : List (List ℕ))
    (targetMask : List (List Bool)) (blank : ℕ) : CtcBatchOut :=
  { perExampleProb :=
      (List.range probs.length).map (fun b =>
        ctcProb ((probs.getD b []).take ((logitMask.getD b []).count true)) blank
          (maskedSelect (targets.getD b []) (targetMask.getD b []))),
    nInvalid :=
      (List.zipWith (fun lm tm => decide (lm.count true < tm.count true))
        logitMask targetMask).count true }

theorem sameNum_le_seqLen (pred tgt : List ℕ) (pad : ℕ) :
    sameNum pred tgt pad ≤ seqLen tgt pad := by
  induction pred generalizing tgt with
  | nil => simp [sameNum]
  | cons p ps ih =>
    cases tgt with
    | nil => simp [sameNum, seqLen]
    | cons t ts =>
      have h := ih ts
      simp only [sameNum, seqLen, List.zip_cons_cons, List.countP_cons] at h ⊢
      by_cases hq : (decide (p = t) && decide (t ≠ pad)) = true
      · have hq2 := hq
        rw [Bool.and_eq_true] at hq2
        rw [if_pos hq, if_pos hq2.2]
        omega
      · rw [if_neg hq]
        omega

theorem zipWith_getD {α β γ : Type} (f : α → β → γ) (l₁ : List α) (l₂ : List β)
    (i : ℕ) (d : γ) (d₁ : α) (d₂ : β) (h₁ : i < l₁.length) (h₂ : i < l₂.length) :
    (List.zipWith f l₁ l₂).getD i d = f (l₁.getD i d₁) (l₂.getD i d₂) := by
  induction l₁ generalizing l₂ i with
  | nil => simp at h₁
  | cons a as ih =>
    cases l₂ with
    | nil => simp at h₂
    | cons b bs =>
      cases i with
      | zero => simp
      | succ n =>
        simp only [List.zipWith_cons_cons, List.getD_cons_succ]
        exact ih bs n (Nat.lt_of_succ_lt_succ h₁) (Nat.lt_of_succ_lt_succ h₂)

theorem map_getD {α β : Type} (f : α → β) (l : List α) (i : ℕ) (d : β) (d₁ : α)
    (h : i < l.length) :
    (l.map f).getD i d = f (l.getD i d₁) := by
  induction l generalizing i with
  | nil => simp at h
  | cons a as ih =>
    cases i with
    | zero => simp
    | succ n =>
      simp only [List.map_cons, List.getD_cons_succ]
      exact ih n (Nat.lt_of_succ_lt_succ h)

/-- C1 counterexample: take `prev_output_tokens = [3]`, `tgt_tokens = [7]`, noisy
prediction `pred_tokens = [9]`, `keep_word_mask = [true]`, `pad = 1`.  The claim
says the decoder input at the mask-True position is the noisy prediction 9, but
the code produces the ground-truth token 7; with the mask False the input is the
original skeleton token 3, not the ground truth. -/
theorem C1_glat_counterexample :
    glatPrevOutputTokens [3] [7] [true] = [7] ∧ (7 : ℕ) ≠ 9 ∧
    glatPrevOutputTokens [3] [7] [false] = [3] ∧ (3 : ℕ) ≠ 7 ∧
    glatTgtTokens [7] [true] 1 = [1] := by decide

/-- C1 (amended): in the glancing construction of `nat_sd_glat_anneal.py` lines
166-172, at every mask-True position the decoder input token is the ground-truth
target token and the target position is set to pad (excluded from the loss); at
every mask-False position the input keeps the original `prev_output_tokens`
skeleton token and the true target label stays exposed to the loss. -/
theorem C1_glat_reveal_semantics (prev tgt : List ℕ) (mask : List Bool) (pad : ℕ)
    (i : ℕ) (hp : prev.length = tgt.length) (hm : mask.length = tgt.length)
    (hi : i < tgt.length) :
    (mask.getD i false = true →
      (glatPrevOutputTokens prev tgt mask).getD i 0 = tgt.getD i 0 ∧
      (glatTgtTokens tgt mask pad).getD i 0 = pad) ∧
    (mask.getD i false = false →
      (glatPrevOutputTokens prev tgt mask).getD i 0 = prev.getD i 0 ∧
      (glatTgtTokens tgt mask pad).getD i 0 = tgt.getD i 0) := by
  have hip : i < prev.length := hp ▸ hi
  have him : i < mask.length := hm ▸ hi
  have hA : i < (maskedFill prev mask 0).length := by
    simpa [maskedFill, hp, hm] using hi
  have hB : i < (maskedFill tgt (mask.map (fun b => !b)) 0).length := by
    simpa [maskedFill, hm] using hi
  have key1 : (glatPrevOutputTokens prev tgt mask).getD i 0 =
      (if mask.getD i false then 0 else prev.getD i 0) +
      (if (mask.map (fun b => !b)).getD i false then 0 else tgt.getD i 0) := by
    rw [glatPrevOutputTokens, zipWith_getD (fun a b => a + b) _ _ i 0 0 0 hA hB]
    rw [maskedFill, zipWith_getD _ prev mask i 0 0 false hip him]
    rw [maskedFill, zipWith_getD _ tgt (mask.map (fun b => !b)) i 0 0 false hi
      (by simpa using him)]
  have key2 : (mask.map (fun b => !b)).getD i false = !(mask.getD i false) :=
    map_getD (fun b => !b) mask i false false him
  have key3 : (glatTgtTokens tgt mask pad).getD i 0 =
      (if mask.getD i false then pad else tgt.getD i 0) := by
    rw [glatTgtTokens, maskedFill, zipWith_getD _ tgt mask i 0 0 false hi him]
  refine ⟨fun hmb => ⟨?_, ?_⟩, fun hmb => ⟨?_, ?_⟩⟩
  · rw [key1, key2, hmb]
    simp
  · rw [key3, hmb]
    simp
  · rw [key1, key2, hmb]
    simp
  · rw [key3, hmb]
    simp

/-- C6 counterexample: with `context_p = 0` (the claim allows any
`context_p ∈ [0,1]`) the keep probability is 0 even though the noisy predictions
do not match the target anywhere, refuting the claim that the keep probability
is 0 exactly when `same_num = seq_len`. -/
theorem C6_keepProb_counterexample :
    keepProb [0] [1] 9 0 = 0 ∧ sameNum [0] [1] 9 ≠ seqLen [1] 9 := by
  refine ⟨?_, by decide⟩
  simp [keepProb]

/-- C6 (amended): the keep probability equals
`(seq_len - same_num)/seq_len * context_p`, lies in `[0, context_p]`, is 0
whenever the noisy predictions match the target at every non-pad position, and
for `context_p > 0` it is 0 exactly in that case (for `context_p = 0` it is
identically 0). -/
theorem C6_keepProb_range (pred tgt : List ℕ) (pad : ℕ) (contextP : ℚ)
    (h0 : 0 ≤ contextP) (_h1 : contextP ≤ 1) (hs : 0 < seqLen tgt pad) :
    0 ≤ keepProb pred tgt pad contextP ∧
    keepProb pred tgt pad contextP ≤ contextP ∧
    (sameNum pred tgt pad = seqLen tgt pad → keepProb pred tgt pad contextP = 0) ∧
    (0 < contextP →
      (keepProb pred tgt pad contextP = 0 ↔
        sameNum pred tgt pad = seqLen tgt pad)) := by
  have hLpos : (0 : ℚ) < (seqLen tgt pad : ℚ) := by exact_mod_cast hs
  have hSle : (sameNum pred tgt pad : ℚ) ≤ (seqLen tgt pad : ℚ) := by
    exact_mod_cast sameNum_le_seqLen pred tgt pad
  have hratio0 : 0 ≤ ((seqLen tgt pad : ℚ) - (sameNum pred tgt pad : ℚ)) / (seqLen tgt pad : ℚ) :=
    div_nonneg (by linarith) (le_of_lt hLpos)
  have hratio1 : ((seqLen tgt pad : ℚ) - (sameNum pred tgt pad : ℚ)) / (seqLen tgt pad : ℚ) ≤ 1 := by
    rw [div_le_one hLpos]
    linarith
  refine ⟨mul_nonneg hratio0 h0, mul_le_of_le_one_left h0 hratio1, ?_, ?_⟩
  · intro hEq
    have hc : (sameNum pred tgt pad : ℚ) = (seqLen tgt pad : ℚ) := by exact_mod_cast hEq
    unfold keepProb
    rw [hc]
    simp
  · intro hcp
    constructor
    · intro h
      rcases mul_eq_zero.mp h with h2 | h2
      · rcases div_eq_zero_iff.mp h2 with h3 | h3
        · have : (sameNum pred tgt pad : ℚ) = (seqLen tgt pad : ℚ) := by linarith
          exact_mod_cast this
        · exact absurd h3 (ne_of_gt hLpos)
      · exact absurd h2 (ne_of_gt hcp)
    · intro hEq
      have hc : (sameNum pred tgt pad : ℚ) = (seqLen tgt pad : ℚ) := by exact_mod_cast hEq
      unfold keepProb
      rw [hc]
      simp

/-- C6 witness: the amended theorem applied at a concrete example. -/
theorem C6_keepProb_range_witness :
    0 < seqLen [0, 9] 9 ∧
    (0 ≤ keepProb [0] [0, 9] 9 (1 / 2) ∧
     keepProb [0] [0, 9] 9 (1 / 2) ≤ 1 / 2 ∧
     (sameNum [0] [0, 9] 9 = seqLen [0, 9] 9 → keepProb [0] [0, 9] 9 (1 / 2) = 0) ∧
     (0 < (1 / 2 : ℚ) →
       (keepProb [0] [0, 9] 9 (1 / 2) = 0 ↔ sameNum [0] [0, 9] 9 = seqLen [0, 9] 9))) :=
  ⟨by decide, C6_keepProb_range [0] [0, 9] 9 (1 / 2) (by norm_num) (by norm_num) (by decide)⟩

/-- C1 witness: the amended theorem applied at a concrete input. -/
theorem C1_glat_reveal_semantics_witness :
    ([3, 4].length = [7, 8].length ∧ [true, false].length = [7, 8].length ∧ 0 < [7, 8].length) ∧
    (([true, false].getD 0 false = true →
        (glatPrevOutputTokens [3, 4] [7, 8] [true, false]).getD 0 0 = [7, 8].getD 0 0 ∧
        (glatTgtTokens [7, 8] [true, false] 1).getD 0 0 = 1) ∧
     ([true, false].getD 0 false = false →
        (glatPrevOutputTokens [3, 4] [7, 8] [true, false]).getD 0 0 = [3, 4].getD 0 0 ∧
        (glatTgtTokens [7, 8] [true, false] 1).getD 0 0 = [7, 8].getD 0 0)) :=
  ⟨⟨by decide, by decide, by decide⟩,
    C1_glat_reveal_semantics [3, 4] [7, 8] [true, false] 1 0 (by decide) (by decide) (by decide)⟩

theorem isBlend_efNewX (cfg : EFConfig) (x : DExpr) (i : ℕ) :
    isBlend (efNewX cfg x i) = true := by
  unfold efNewX
  cases cfg.feedForwardWeights <;> simp [isBlend]

theorem efLoop_eq_foldl (cfg : EFConfig) (l : List ℕ) (s : EFState)
    (h : ∀ i ∈ l, efKeep cfg i = true) :
    efLoop cfg l s = l.foldl (efStep cfg) s := by
  induction l generalizing s with
  | nil => rfl
  | cons i rest ih =>
    have hk := h i (List.mem_cons_self i rest)
    rw [efLoop, if_pos hk, List.foldl_cons]
    exact ih _ (fun j hj => h j (List.mem_cons_of_mem i hj))

theorem efLoop_break (cfg : EFConfig) (l₁ l₂ : List ℕ) (j : ℕ) (s : EFState)
    (h₁ : ∀ i ∈ l₁, efKeep cfg i = true) (hj : efKeep cfg j = false) :
    efLoop cfg (l₁ ++ j :: l₂) s = l₁.foldl (efStep cfg) s := by
  induction l₁ generalizing s with
  | nil =>
    simp only [List.nil_append, List.foldl_nil]
    rw [efLoop, if_neg (by simp [hj])]
  | cons i rest ih =>
    have hk := h₁ i (List.mem_cons_self i rest)
    rw [List.cons_append, efLoop, if_pos hk, List.foldl_cons]
    exact ih _ (fun r hr => h₁ r (List.mem_cons_of_mem i hr))

theorem foldl_efStep_logits_length (cfg : EFConfig) (l : List ℕ) (s : EFState) :
    (l.foldl (efStep cfg) s).logits.length =
      s.logits.length + l.countP (fun i => decide (0 < i)) := by
  induction l generalizing s with
  | nil => simp
  | cons i rest ih =>
    rw [List.foldl_cons, ih, List.countP_cons]
    by_cases h0 : 0 < i
    · simp [efStep, h0]
      omega
    · simp [efStep, h0]

theorem countP_pos_range (e : ℕ) :
    (List.range e).countP (fun i => decide (0 < i)) = e - 1 := by
  induction e with
  | zero => simp
  | succ n ih =>
    rw [List.range_succ, List.countP_append, ih]
    by_cases h : 0 < n
    · simp [h]
      omega
    · have hn : n = 0 := by omega
      subst hn
      simp

theorem efLoop_fedInputs_append (cfg : EFConfig) (l : List ℕ) (s : EFState) :
    ∃ t, (efLoop cfg l s).fedInputs = s.fedInputs ++ t := by
  induction l generalizing s with
  | nil => exact ⟨[], by simp [efLoop]⟩
  | cons i rest ih =>
    by_cases hk : efKeep cfg i = true
    · obtain ⟨t, ht⟩ := ih (efStep cfg s i)
      refine ⟨[efNewX cfg s.x i] ++ t, ?_⟩
      rw [efLoop, if_pos hk, ht]
      simp [efStep]
    · refine ⟨[], ?_⟩
      rw [efLoop, if_neg hk]
      simp

theorem efLoop_isBlend (cfg : EFConfig) (l : List ℕ) (s : EFState)
    (hs : ∀ d ∈ s.fedInputs, isBlend d = true) :
    ∀ d ∈ (efLoop cfg l s).fedInputs, isBlend d = true := by
  induction l generalizing s with
  | nil => simpa [efLoop] using hs
  | cons i rest ih =>
    by_cases hk : efKeep cfg i = true
    · rw [efLoop, if_pos hk]
      apply ih
      intro d hd
      simp only [efStep, List.mem_append, List.mem_singleton] at hd
      rcases hd with hd | hd
      · exact hs d hd
      · rw [hd]
        exact isBlend_efNewX cfg s.x i
    · rw [efLoop, if_neg hk]
      exact hs

/-- C2 counterexample: with one decoder layer, soft feedback, temperature 1/10
and no weight schedule, the hidden state fed into layer 0's attention is the
blend `(x + y_hat)/sqrt 2`, not the embedded input `x` unchanged. -/
theorem C2_layer0_blend_counterexample :
    (extractFeatures ⟨1, false, 1 / 10, none, none⟩).fedInputs.getD 0 DExpr.init =
      DExpr.blend DExpr.init
        (DExpr.yhatSoft (1 / 10) (DExpr.outputLayer DExpr.init)) ∧
    (extractFeatures ⟨1, false, 1 / 10, none, none⟩).fedInputs.getD 0 DExpr.init ≠
      DExpr.init := by
  constructor
  · rfl
  · decide

/-- C2 (amended): in `extract_features` of `nat_sd_glat_anneal.py` the feedback
blend is applied at every executed layer, including layer 0: each hidden state
fed to an attention layer is a `blend`/`blendW` node, and with no weight
schedule layer 0 receives `(x + y_hat(x))/sqrt 2` where `x` is the embedded
input.  Layer 0 is special only in that its pre-attention logits are excluded
from the reported logits list. -/
theorem C2_blend_every_layer (cfg : EFConfig) :
    (∀ d ∈ (extractFeatures cfg).fedInputs, isBlend d = true) ∧
    (cfg.feedForwardWeights = none → 0 < layersRun cfg →
      (extractFeatures cfg).fedInputs.getD 0 DExpr.init =
        DExpr.blend DExpr.init (efYhat cfg DExpr.init)) := by
  constructor
  · intro d hd
    apply efLoop_isBlend cfg (List.range cfg.numLayers)
      { x := DExpr.init, logits := [], fedInputs := [] } (by simp)
    simpa [extractFeatures] using hd
  · intro hw hr
    have hn : 0 < cfg.numLayers := by
      cases he : cfg.earlyExit with
      | none => simpa [layersRun, he] using hr
      | some e =>
        have h5 := hr
        simp [layersRun, he, Nat.lt_min] at h5
        exact h5.1
    have hkeep0 : efKeep cfg 0 = true := by
      cases he : cfg.earlyExit with
      | none => simp [efKeep, he]
      | some e =>
        have h5 := hr
        simp [layersRun, he, Nat.lt_min] at h5
        simp [efKeep, he]
        omega
    obtain ⟨m, hm⟩ : ∃ m, cfg.numLayers = m + 1 := ⟨cfg.numLayers - 1, by omega⟩
    have hfed : (extractFeatures cfg).fedInputs =
        (efLoop cfg (List.range cfg.numLayers)
          { x := DExpr.init, logits := [], fedInputs := [] }).fedInputs := by
      simp [extractFeatures]
    rw [hfed, hm, List.range_succ_eq_map, efLoop, if_pos hkeep0]
    obtain ⟨t, ht⟩ := efLoop_fedInputs_append cfg (List.map Nat.succ (List.range m))
      (efStep cfg { x := DExpr.init, logits := [], fedInputs := [] } 0)
    rw [ht]
    simp [efStep, efNewX, hw]

/-- C2 witness: the amended theorem applied at a two-layer hard-argmax
configuration. -/
theorem C2_blend_every_layer_witness :
    ((⟨2, true, 1 / 10, none, none⟩ : EFConfig).feedForwardWeights = none ∧
      0 < layersRun ⟨2, true, 1 / 10, none, none⟩) ∧
    ((∀ d ∈ (extractFeatures ⟨2, true, 1 / 10, none, none⟩).fedInputs,
        isBlend d = true) ∧
     ((⟨2, true, 1 / 10, none, none⟩ : EFConfig).feedForwardWeights = none →
        0 < layersRun ⟨2, true, 1 / 10, none, none⟩ →
        (extractFeatures ⟨2, true, 1 / 10, none, none⟩).fedInputs.getD 0 DExpr.init =
          DExpr.blend DExpr.init (efYhat ⟨2, true, 1 / 10, none, none⟩ DExpr.init))) :=
  ⟨⟨rfl, by decide⟩, C2_blend_every_layer ⟨2, true, 1 / 10, none, none⟩⟩

/-- C4 counterexample: with 2 decoder layers and early exit `e = 1` (which
satisfies `1 ≤ e ≤ numLayers`), the returned logits list has length 1, not
`(#layers run) + 1 = 2`. -/
theorem C4_logits_length_counterexample :
    (extractFeatures ⟨2, false, 1 / 10, none, some 1⟩).logits.length = 1 ∧
    layersRun ⟨2, false, 1 / 10, none, some 1⟩ = 1 ∧
    (extractFeatures ⟨2, false, 1 / 10, none, some 1⟩).logits.length ≠ 1 + 1 := by
  refine ⟨rfl, rfl, by decide⟩

/-- C4 (amended): for every early-exit value `e` with `1 ≤ e ≤ numLayers`, the
logits list returned by `extract_features` has length exactly `e` — the number
of layers actually run — made of one feedback entry per executed layer `i ≥ 1`
plus one trailing entry computed after the last executed layer (layer 0
contributes no entry). -/
theorem C4_logits_length (cfg : EFConfig) (e : ℕ)
    (he : cfg.earlyExit = some e) (h1 : 1 ≤ e) (h2 : e ≤ cfg.numLayers) :
    (extractFeatures cfg).logits.length = e := by
  have hkeep : ∀ i ∈ List.range e, efKeep cfg i = true := by
    intro i hi
    simp [efKeep, he]
    exact List.mem_range.mp hi
  have hfold : (efLoop cfg (List.range cfg.numLayers)
      { x := DExpr.init, logits := [], fedInputs := [] }).logits.length = e - 1 := by
    rcases Nat.eq_or_lt_of_le h2 with heq | hlt
    · rw [← heq, efLoop_eq_foldl cfg _ _ hkeep, foldl_efStep_logits_length,
        countP_pos_range]
      simp
    · obtain ⟨k, hk⟩ : ∃ k, cfg.numLayers - e = k + 1 :=
        ⟨cfg.numLayers - e - 1, by omega⟩
      have hsplit : List.range cfg.numLayers =
          List.range e ++ (e :: List.range' (e + 1) k) := by
        have h4 := List.range'_append 0 e (cfg.numLayers - e) 1
        simp only [Nat.zero_add, Nat.one_mul] at h4
        rw [show cfg.numLayers - e + e = cfg.numLayers from by omega] at h4
        rw [List.range_eq_range', ← h4, hk, List.range'_succ,
          ← List.range_eq_range']
      rw [hsplit, efLoop_break cfg _ _ _ _ hkeep (by simp [efKeep, he]),
        foldl_efStep_logits_length, countP_pos_range]
      simp
  simp only [extractFeatures, List.length_append, List.length_cons,
    List.length_nil]
  omega

/-- C4 witness: the amended theorem applied at 3 layers with early exit 2. -/
theorem C4_logits_length_witness :
    ((⟨3, false, 1 / 10, none, some 2⟩ : EFConfig).earlyExit = some 2 ∧
      1 ≤ 2 ∧ 2 ≤ (⟨3, false, 1 / 10, none, some 2⟩ : EFConfig).numLayers) ∧
    (extractFeatures ⟨3, false, 1 / 10, none, some 2⟩).logits.length = 2 :=
  ⟨⟨rfl, by decide, by decide⟩,
    C4_logits_length ⟨3, false, 1 / 10, none, some 2⟩ 2 rfl (by decide) (by decide)⟩

theorem skeletonRow_length (cfg : SkelCfg) (maxLen L : ℕ) :
    (skeletonRow cfg maxLen L).length = maxLen := by
  simp [skeletonRow, List.length_set, List.length_zipWith]

theorem skeletonRow_getD (cfg : SkelCfg) (maxLen L j : ℕ) (hL : 1 ≤ L)
    (hj : j < maxLen) :
    (skeletonRow cfg maxLen L).getD j 0 =
      (if j + 1 = L then cfg.eos else if j = 0 then cfg.bos
       else if j < L then cfg.unk else cfg.pad) := by
  have hj2 : j < (skeletonRow cfg maxLen L).length := by
    rw [skeletonRow_length]
    exact hj
  rw [List.getD_eq_getElem _ _ hj2]
  simp only [skeletonRow, List.getElem_set, List.getElem_zipWith,
    List.getElem_range, List.getElem_replicate]
  have hLL : (L - 1 = j) = (j + 1 = L) := propext (by omega)
  have h0j : (0 = j) = (j = 0) := propext (by constructor <;> (intro h; omega))
  simp only [hLL, h0j]

theorem tensorMax_map_clamp (f : List ℕ → ℕ) (l : List (List ℕ)) (hne : l ≠ []) :
    tensorMax (l.map (fun r => max 2 (f r))) = max 2 (tensorMax (l.map f)) := by
  induction l with
  | nil => exact absurd rfl hne
  | cons a rest ih =>
    cases rest with
    | nil => simp [tensorMax]
    | cons b rest2 =>
      have ih2 := ih (by simp)
      simp only [List.map_cons, tensorMax, List.foldr_cons] at ih2 ⊢
      omega

/-- C5 (confirmed): in the non-copy branch, `initialize_output_tokens_by_src_tokens`
produces a `[B, T]` batch with `T` the maximum over examples of
`count_nonpad * scale` clamped below at 2; each row `b` of clamped length `L_b`
has `bos` at column 0, `eos` exactly at column `L_b - 1`, `unk` at the other
columns below `L_b`, and `pad` exactly at the columns `≥ L_b` (never before);
in copy mode with scale `≤ 1` the source tokens are returned unchanged. -/
theorem C5_initialize_skeleton (cfg : SkelCfg) (scale : ℕ) (src : List (List ℕ))
    (hne : src ≠ []) (hpb : cfg.pad ≠ cfg.bos) (hpe : cfg.pad ≠ cfg.eos)
    (hpu : cfg.pad ≠ cfg.unk) :
    tensorMax (src.map (clampedSrcLen cfg scale)) =
      max 2 (tensorMax (src.map (fun r =>
        (r.countP (fun t => decide (t ≠ cfg.pad))) * scale))) ∧
    (initializeOutputTokensBySrcTokens cfg false scale src).length = src.length ∧
    (∀ row ∈ initializeOutputTokensBySrcTokens cfg false scale src,
      row.length = tensorMax (src.map (clampedSrcLen cfg scale))) ∧
    (∀ b, b < src.length →
      ∀ j, j < tensorMax (src.map (clampedSrcLen cfg scale)) →
      ((initializeOutputTokensBySrcTokens cfg false scale src).getD b []).getD j 0 =
        (if j + 1 = clampedSrcLen cfg scale (src.getD b []) then cfg.eos
         else if j = 0 then cfg.bos
         else if j < clampedSrcLen cfg scale (src.getD b []) then cfg.unk
         else cfg.pad)) ∧
    (∀ b, b < src.length →
      ∀ j, j < tensorMax (src.map (clampedSrcLen cfg scale)) →
      (((initializeOutputTokensBySrcTokens cfg false scale src).getD b []).getD j 0 =
          cfg.pad ↔ clampedSrcLen cfg scale (src.getD b []) ≤ j)) ∧
    (∀ scale2, scale2 ≤ 1 →
      initializeOutputTokensBySrcTokens cfg true scale2 src = src) := by
  have hcell : ∀ b, b < src.length →
      ∀ j, j < tensorMax (src.map (clampedSrcLen cfg scale)) →
      ((initializeOutputTokensBySrcTokens cfg false scale src).getD b []).getD j 0 =
        (if j + 1 = clampedSrcLen cfg scale (src.getD b []) then cfg.eos
         else if j = 0 then cfg.bos
         else if j < clampedSrcLen cfg scale (src.getD b []) then cfg.unk
         else cfg.pad) := by
    intro b hb j hj
    have hred : initializeOutputTokensBySrcTokens cfg false scale src =
        buildLengthSkeletons cfg (src.map (clampedSrcLen cfg scale)) := rfl
    have hmap : (initializeOutputTokensBySrcTokens cfg false scale src).getD b [] =
        skeletonRow cfg (tensorMax (src.map (clampedSrcLen cfg scale)))
          ((src.map (clampedSrcLen cfg scale)).getD b 0) := by
      rw [hred, buildLengthSkeletons]
      exact map_getD _ _ b [] 0 (by simpa using hb)
    have hlen : (src.map (clampedSrcLen cfg scale)).getD b 0 =
        clampedSrcLen cfg scale (src.getD b []) :=
      map_getD _ _ b 0 [] hb
    rw [hmap, hlen, skeletonRow_getD]
    · unfold clampedSrcLen
      omega
    · exact hj
  have hred : initializeOutputTokensBySrcTokens cfg false scale src =
      buildLengthSkeletons cfg (src.map (clampedSrcLen cfg scale)) := rfl
  refine ⟨?_, ?_, ?_, hcell, ?_, ?_⟩
  · exact tensorMax_map_clamp _ src hne
  · rw [hred, buildLengthSkeletons]
    simp
  · intro row hrow
    rw [hred, buildLengthSkeletons] at hrow
    rw [List.mem_map] at hrow
    obtain ⟨L, _, hL⟩ := hrow
    rw [← hL, skeletonRow_length]
  · intro b hb j hj
    rw [hcell b hb j hj]
    have h2 : 2 ≤ clampedSrcLen cfg scale (src.getD b []) := by
      unfold clampedSrcLen
      omega
    split_ifs with h1 hz hlt
    · constructor
      · intro h
        exact absurd h.symm hpe
      · intro h
        omega
    · constructor
      · intro h
        exact absurd h.symm hpb
      · intro h
        omega
    · constructor
      · intro h
        exact absurd h.symm hpu
      · intro h
        omega
    · constructor
      · intro _
        omega
      · intro _
        rfl
  · intro scale2 hs2
    simp [initializeOutputTokensBySrcTokens, hs2]

/-- C5 witness: the theorem applied at `pad = 1, bos = 0, eos = 2, unk = 3`,
scale 2, source batch `[[4, 5, 1]]` (two non-pad tokens, so clamped length 4):
column 3 of the produced row holds `eos`. -/
theorem C5_initialize_skeleton_witness :
    ((initializeOutputTokensBySrcTokens ⟨1, 0, 2, 3⟩ false 2 [[4, 5, 1]]).getD 0 []).getD 3 0 =
      (2 : ℕ) := by
  have h := C5_initialize_skeleton ⟨1, 0, 2, 3⟩ 2 [[4, 5, 1]]
    (by decide) (by decide) (by decide) (by decide)
  have h2 := h.2.2.2.1 0 (by decide) 3 (by decide)
  rw [h2]
  decide

theorem regenLengths_length (curLens : List ℕ) (beamSize : ℕ) :
    (regenLengthBeamLengths curLens beamSize).length = curLens.length * beamSize := by
  induction curLens with
  | nil => simp [regenLengthBeamLengths]
  | cons L rest ih =>
    have ih2 := ih
    simp only [regenLengthBeamLengths] at ih2
    simp only [regenLengthBeamLengths, List.map_cons, List.flatten_cons,
      List.length_append, List.length_map, List.length_range, ih2,
      List.length_cons]
    ring

theorem regenLengths_getD (curLens : List ℕ) (beamSize b i : ℕ)
    (hb : b < curLens.length) (hi : i < beamSize) :
    (regenLengthBeamLengths curLens beamSize).getD (b * beamSize + i) 0 =
      (max 2 ((curLens.getD b 0 : ℤ) + (i : ℤ) - ((beamSize / 2 : ℕ) : ℤ))).toNat := by
  induction curLens generalizing b with
  | nil => simp at hb
  | cons L rest ih =>
    simp only [regenLengthBeamLengths, List.map_cons, List.flatten_cons]
    cases b with
    | zero =>
      rw [Nat.zero_mul, Nat.zero_add]
      rw [List.getD_append _ _ _ i (by simpa using hi)]
      rw [map_getD _ _ i 0 0 (by simpa using hi)]
      have hr : (List.range beamSize).getD i 0 = i := by
        rw [List.getD_eq_getElem _ _ (by simpa using hi), List.getElem_range]
      rw [hr]
      simp
    | succ k =>
      have hkb : k < rest.length := by simpa using hb
      have ih2 := ih k hkb
      simp only [regenLengthBeamLengths] at ih2
      rw [Nat.succ_mul]
      have hidx : k * beamSize + beamSize + i = beamSize + (k * beamSize + i) := by
        omega
      rw [hidx, List.getD_append_right _ _ _ _ (by simp)]
      simp only [List.length_map, List.length_range, Nat.add_sub_cancel_left]
      rw [ih2]
      simp

/-- C8 counterexample: with `beam_size = 3` and current length 6 the code
produces candidate lengths `[5, 6, 7]` (offsets `-1, 0, +1`), while the
claimed offset range `-(3//2) .. +(3//2 - 1)` yields only `[5, 6]`; the claim's
own `{5, 6, 7}` example contradicts its stated offset range. -/
theorem C8_beam_counterexample :
    regenLengthBeamLengths [6] 3 = [5, 6, 7] ∧
    specClaimBeamLengths 6 3 = [5, 6] ∧
    regenLengthBeamLengths [6] 3 ≠ specClaimBeamLengths 6 3 := by decide

/-- C8 (amended): `regenerate_length_beam` expands each example of current
non-pad length `L` into exactly `beam_size` candidate lengths
`L + i - beam_size // 2` for `i = 0 .. beam_size - 1` — that is, offsets
`-(beam_size//2) .. +(beam_size - 1 - beam_size//2)` — each clamped below
at 2. -/
theorem C8_regen_length_beam (curLens : List ℕ) (beamSize b i : ℕ)
    (hb : b < curLens.length) (hi : i < beamSize) :
    (regenLengthBeamLengths curLens beamSize).length = curLens.length * beamSize ∧
    (regenLengthBeamLengths curLens beamSize).getD (b * beamSize + i) 0 =
      (max 2 ((curLens.getD b 0 : ℤ) + (i : ℤ) - ((beamSize / 2 : ℕ) : ℤ))).toNat :=
  ⟨regenLengths_length curLens beamSize, regenLengths_getD curLens beamSize b i hb hi⟩

/-- C8 witness: the amended theorem applied at current length 6 and
`beam_size = 3`, position `i = 2` (offset `+1`), giving length 7. -/
theorem C8_regen_length_beam_witness :
    (regenLengthBeamLengths [6] 3).length = ([6] : List ℕ).length * 3 ∧
    (regenLengthBeamLengths [6] 3).getD (0 * 3 + 2) 0 =
      (max 2 ((([6] : List ℕ).getD 0 0 : ℤ) + ((2 : ℕ) : ℤ) - ((3 / 2 : ℕ) : ℤ))).toNat :=
  C8_regen_length_beam [6] 3 0 2 (by decide) (by decide)

/-- C9 counterexample: a state referencing token tensor `[[5]]` (heap id 0) and
score tensor `[[0]]`, decoded with one layer of logits `[[0, 1]]` (argmax
token 1) and `pad = 9`: after `forward_decoder` the heap entry referenced by
the input state holds `[[1]]`, no longer its original value `[[5]]` — the input
state's token tensor was mutated in place — and the returned state references
that very same tensor. -/
theorem C9_forward_decoder_counterexample :
    ((forwardDecoderGlatAnneal ⟨[[[5]]], [[[0]]]⟩ ⟨0, 0, 0⟩ [[[[0, 1]]]] (-1) 9).1).toks.getD 0 [] =
      [[1]] ∧
    ((forwardDecoderGlatAnneal ⟨[[[5]]], [[[0]]]⟩ ⟨0, 0, 0⟩ [[[[0, 1]]]] (-1) 9).1).toks.getD 0 [] ≠
      (⟨[[[5]]], [[[0]]]⟩ : TensorHeap).toks.getD 0 [] ∧
    ((forwardDecoderGlatAnneal ⟨[[[5]]], [[[0]]]⟩ ⟨0, 0, 0⟩ [[[[0, 1]]]] (-1) 9).2).outputTokens =
      (⟨0, 0, 0⟩ : DecoderOutR).outputTokens := by decide

/-- C9 (amended): `forward_decoder` mutates the structural tensors of the
input state in place: after the call, the heap entries referenced by the input
state hold the masked-scatter results (the original token/score values are not
retained there), and the returned state holds exactly the same references as
the input state — `_replace` copies references, not tensors. -/
theorem C9_forward_decoder_inplace (h : TensorHeap) (s : DecoderOutR)
    (lg : List (List (List (List ℚ)))) (layer : ℤ) (pad : ℕ)
    (htok : s.outputTokens < h.toks.length)
    (hsc : s.outputScores < h.scores.length) :
    ((forwardDecoderGlatAnneal h s lg layer pad).2).outputTokens = s.outputTokens ∧
    ((forwardDecoderGlatAnneal h s lg layer pad).2).outputScores = s.outputScores ∧
    ((forwardDecoderGlatAnneal h s lg layer pad).1).toks.getD s.outputTokens [] =
      maskedScatterTokens pad (h.toks.getD s.outputTokens []) (pyGet lg layer []) ∧
    ((forwardDecoderGlatAnneal h s lg layer pad).1).scores.getD s.outputScores [] =
      maskedScatterScores pad (h.toks.getD s.outputTokens [])
        (h.scores.getD s.outputScores []) (pyGet lg layer []) := by
  refine ⟨rfl, rfl, ?_, ?_⟩
  · simp only [forwardDecoderGlatAnneal]
    rw [List.getD_eq_getElem _ _ (by simpa using htok), List.getElem_set]
    simp
  · simp only [forwardDecoderGlatAnneal]
    rw [List.getD_eq_getElem _ _ (by simpa using hsc), List.getElem_set]
    simp

/-- C9 witness: the amended theorem applied at a concrete heap and state. -/
theorem C9_forward_decoder_inplace_witness :
    ((forwardDecoderGlatAnneal ⟨[[[4]]], [[[0]]]⟩ ⟨0, 0, 1⟩ [[[[2, 1]]]] (-1) 7).2).outputTokens =
      (⟨0, 0, 1⟩ : DecoderOutR).outputTokens :=
  (C9_forward_decoder_inplace ⟨[[[4]]], [[[0]]]⟩ ⟨0, 0, 1⟩ [[[[2, 1]]]] (-1) 7
    (by decide) (by decide)).1

/-- C10 counterexample: a training-mode call whose `glat` dict lacks
`context_p` but contains `schedule` raises `NotImplementedError` (line 205),
not the `NameError` the claim asserts for every call lacking `context_p`. -/
theorem C10_schedule_counterexample :
    glatAnnealForwardOutcome true (some ["schedule"]) false =
      Except.error PyExc.notImplementedError ∧
    (Except.error PyExc.notImplementedError : Except PyExc Unit) ≠
      Except.error PyExc.nameError := by
  refine ⟨rfl, ?_⟩
  intro hcon
  injection hcon with h
  exact PyExc.noConfusion h

/-- C10 (amended): in training mode with `tgt_tokens` supplied, a `glat`
argument lacking the `context_p` key never reaches the loss dictionary: if it
contains `schedule` the call raises `NotImplementedError`; otherwise — `glat`
equal to `None`, an empty dict, or a dict with neither key — the decoder call
references the never-assigned `all_layer_weight` and raises `NameError`. -/
theorem C10_training_requires_context_p (glatKeys : Option (List String))
    (hnc : "context_p" ∉ glatKeys.getD []) :
    ("schedule" ∈ glatKeys.getD [] →
      glatAnnealForwardOutcome true glatKeys false =
        Except.error PyExc.notImplementedError) ∧
    ("schedule" ∉ glatKeys.getD [] →
      glatAnnealForwardOutcome true glatKeys false =
        Except.error PyExc.nameError) := by
  constructor
  · intro hs
    have hne : glatKeys.getD [] ≠ [] := by
      intro h
      rw [h] at hs
      simp at hs
    have hsome : glatKeys.isSome = true := by
      cases glatKeys with
      | none => exact absurd rfl hne
      | some l => rfl
    have hC1 : ¬((glatKeys.isSome = true ∧ glatKeys.getD [] ≠ [] ∧ false = false) ∧
        "context_p" ∈ glatKeys.getD []) := fun hcon => hnc hcon.2
    have hC2 : ((glatKeys.isSome = true ∧ glatKeys.getD [] ≠ [] ∧ false = false) ∧
        "schedule" ∈ glatKeys.getD []) := ⟨⟨hsome, hne, rfl⟩, hs⟩
    unfold glatAnnealForwardOutcome
    rw [if_neg hC1, if_pos hC2]
  · intro hs
    have hC1 : ¬((glatKeys.isSome = true ∧ glatKeys.getD [] ≠ [] ∧ false = false) ∧
        "context_p" ∈ glatKeys.getD []) := fun hcon => hnc hcon.2
    have hC2 : ¬((glatKeys.isSome = true ∧ glatKeys.getD [] ≠ [] ∧ false = false) ∧
        "schedule" ∈ glatKeys.getD []) := fun hcon => hs hcon.2
    unfold glatAnnealForwardOutcome
    rw [if_neg hC1, if_neg hC2, if_pos rfl]

/-- C10 witness: the amended theorem applied at `glat = {"schedule": ...}`. -/
theorem C10_training_requires_context_p_witness :
    ("context_p" ∉ (some ["schedule"] : Option (List String)).getD []) ∧
    (("schedule" ∈ (some ["schedule"] : Option (List String)).getD [] →
        glatAnnealForwardOutcome true (some ["schedule"]) false =
          Except.error PyExc.notImplementedError) ∧
     ("schedule" ∉ (some ["schedule"] : Option (List String)).getD [] →
        glatAnnealForwardOutcome true (some ["schedule"]) false =
          Except.error PyExc.nameError)) :=
  ⟨by decide, C10_training_requires_context_p (some ["schedule"]) (by decide)⟩

/-- C3 counterexample: two decoder layers, one sample (`N = 1`), with the
per-sample loss functional reading the gathered scalar: the code returns
`1 / 2` (sum of the one sampled loss divided by the number of layers), while
the claimed average over `N` samples is `1`. -/
theorem C3_divisor_counterexample :
    crossLayerSampleCtcLoss [[[1]], [[0]]] [[0]]
      (fun g => (g.getD 0 []).getD 0 0) = 1 / 2 ∧
    specCrossLayerAvg [[[1]], [[0]]] [[0]]
      (fun g => (g.getD 0 []).getD 0 0) = 1 ∧
    crossLayerSampleCtcLoss [[[1]], [[0]]] [[0]]
        (fun g => (g.getD 0 []).getD 0 0) ≠
      specCrossLayerAvg [[[1]], [[0]]] [[0]]
        (fun g => (g.getD 0 []).getD 0 0) := by
  refine ⟨?_, ?_, ?_⟩ <;>
    norm_num [crossLayerSampleCtcLoss, specCrossLayerAvg, gatherLayers]

/-- C3 (amended): in cross-layer sampling mode the returned `ctc_loss` is the
sum of the `N` per-sample mixed-layer CTC losses divided by the number of
decoder-layer logits entries (`len` of the stacked tensor), not by `N`; the
two coincide exactly when `N` equals the number of layers. -/
theorem C3_cross_layer_loss_divisor (layers : List (List (List ℚ)))
    (sampledIds : List (List ℕ)) (ctcLossOf : List (List ℚ) → ℚ) :
    crossLayerSampleCtcLoss layers sampledIds ctcLossOf =
      ((sampledIds.map (fun ids => ctcLossOf (gatherLayers layers ids))).sum) /
        (layers.length : ℚ) ∧
    (sampledIds.length = layers.length →
      crossLayerSampleCtcLoss layers sampledIds ctcLossOf =
        specCrossLayerAvg layers sampledIds ctcLossOf) := by
  refine ⟨rfl, ?_⟩
  intro hN
  unfold crossLayerSampleCtcLoss specCrossLayerAvg
  rw [hN]

/-- C3 witness: with `N = 2` samples over 2 layers the code value and the
claimed average coincide, via the amended theorem. -/
theorem C3_cross_layer_loss_divisor_witness :
    crossLayerSampleCtcLoss [[[1]], [[0]]] [[0], [1]]
        (fun g => (g.getD 0 []).getD 0 0) =
      specCrossLayerAvg [[[1]], [[0]]] [[0], [1]]
        (fun g => (g.getD 0 []).getD 0 0) :=
  (C3_cross_layer_loss_divisor [[[1]], [[0]]] [[0], [1]]
    (fun g => (g.getD 0 []).getD 0 0)).2 (by decide)

theorem pathProb_cons (r : List ℚ) (rs : List (List ℚ)) (c : ℕ) (cs : List ℕ) :
    pathProb (r :: rs) (c :: cs) = r.getD c 0 * pathProb rs cs := by
  simp [pathProb]

theorem getD_nonneg (r : List ℚ) (c : ℕ) (h : ∀ x ∈ r, 0 ≤ x) :
    0 ≤ r.getD c 0 := by
  by_cases hc : c < r.length
  · rw [List.getD_eq_getElem _ _ hc]
    exact h _ (List.getElem_mem hc)
  · rw [List.getD_eq_default _ _ (by omega)]

theorem pathProb_nonneg (probs : List (List ℚ)) (path : List ℕ)
    (h : ∀ row ∈ probs, ∀ x ∈ row, 0 ≤ x) : 0 ≤ pathProb probs path := by
  induction probs generalizing path with
  | nil => simp [pathProb]
  | cons r rs ih =>
    cases path with
    | nil => simp [pathProb]
    | cons c cs =>
      rw [pathProb_cons]
      exact mul_nonneg (getD_nonneg r c (h r (List.mem_cons_self r rs)))
        (ih cs (fun row hrow => h row (List.mem_cons_of_mem r hrow)))

theorem map_getD_range_self (l : List ℚ) :
    (List.range l.length).map (fun c => l.getD c 0) = l := by
  apply List.ext_getElem (by simp)
  intro i h1 h2
  rw [List.getElem_map, List.getElem_range, List.getD_eq_getElem _ _ h2]

theorem sum_pathProb_allPaths (probs : List (List ℚ)) (V : ℕ)
    (hlen : ∀ row ∈ probs, row.length = V) :
    ((allPaths V probs.length).map (pathProb probs)).sum =
      (probs.map List.sum).prod := by
  induction probs with
  | nil => simp [allPaths, pathProb]
  | cons r rs ih =>
    have hr : r.length = V := hlen r (List.mem_cons_self r rs)
    have ih2 := ih (fun row hrow => hlen row (List.mem_cons_of_mem r hrow))
    simp only [List.length_cons]
    rw [allPaths]
    simp only [List.map_flatten, List.sum_flatten, List.map_map,
      Function.comp_def, pathProb_cons, List.sum_map_mul_left]
    simp only [ih2]
    rw [List.sum_map_mul_right, ← hr, map_getD_range_self]
    simp

theorem sum_map_filter_le (l : List (List ℕ)) (p : List ℕ → Bool)
    (f : List ℕ → ℚ) (h : ∀ a ∈ l, 0 ≤ f a) :
    ((l.filter p).map f).sum ≤ (l.map f).sum := by
  apply List.Sublist.sum_le_sum ((List.filter_sublist l).map f)
  intro a ha
  obtain ⟨b, hb, rfl⟩ := List.mem_map.mp ha
  exact h b hb

theorem ctcProb_nonneg (probs : List (List ℚ)) (blank : ℕ) (target : List ℕ)
    (h : ∀ row ∈ probs, ∀ x ∈ row, 0 ≤ x) : 0 ≤ ctcProb probs blank target := by
  apply List.sum_nonneg
  intro x hx
  obtain ⟨p, hp, rfl⟩ := List.mem_map.mp hx
  exact pathProb_nonneg probs p h

theorem ctcProb_le_one (probs : List (List ℚ)) (blank : ℕ) (target : List ℕ)
    (hnn : ∀ row ∈ probs, ∀ x ∈ row, 0 ≤ x)
    (hlen : ∀ row ∈ probs, row.length = (probs.headD []).length)
    (hsum : ∀ row ∈ probs, row.sum = 1) :
    ctcProb probs blank target ≤ 1 := by
  unfold ctcProb
  have hb := sum_map_filter_le
    (allPaths (probs.headD []).length probs.length)
    (fun p => decide (ctcCollapse blank p = target)) (pathProb probs)
    (fun a _ => pathProb_nonneg probs a hnn)
  refine le_trans hb ?_
  have h1 : (probs.map List.sum).prod = 1 := by
    apply List.prod_eq_one
    intro x hx
    obtain ⟨row, hrow, rfl⟩ := List.mem_map.mp hx
    exact hsum row hrow
  rw [sum_pathProb_allPaths probs _ hlen, h1]

theorem headD_take {α : Type} (l : List α) (k : ℕ) (d : α)
    (h : l.take k ≠ []) : (l.take k).headD d = l.headD d := by
  cases l with
  | nil => simp at h
  | cons a as =>
    cases k with
    | zero => simp at h
    | succ n => simp [List.take_succ_cons]

/-- C7 (confirmed): `sequence_ctc_loss_with_logits` is total on every batch:
it always returns the batch value together with `n_invalid_samples`, the count
of examples whose logit length is shorter than their target length (the
`raise ValueError` is commented out, so such examples only produce a
warning-level diagnostic).  When every row of the (softmaxed) logits is a
probability distribution, every per-example CTC feasibility probability lies
in `[0, 1]`, so under the `zero_infinity=True` policy every per-example loss
`-log p` (with `p = 0` mapped to 0 rather than `+inf`) is a non-negative real
— finite, never `-inf` or NaN — and so is the batch reduction. -/
theorem C7_ctc_loss_zero_infinity (probs : List (List (List ℚ)))
    (logitMask : List (List Bool)) (targets : List (List ℕ))
    (targetMask : List (List Bool)) (blank : ℕ)
    (hdist : ∀ ex ∈ probs, ∀ row ∈ ex,
      (∀ x ∈ row, 0 ≤ x) ∧ row.sum = 1 ∧ row.length = (ex.headD []).length) :
    (sequenceCtcLossWithLogits probs logitMask targets targetMask blank).nInvalid =
      (List.zipWith (fun lm tm => decide (lm.count true < tm.count true))
        logitMask targetMask).count true ∧
    (∀ p ∈ (sequenceCtcLossWithLogits probs logitMask targets targetMask
        blank).perExampleProb,
      0 ≤ p ∧ p ≤ 1 ∧ 0 ≤ (if p = 0 then (0 : ℝ) else -Real.log p)) ∧
    0 ≤ ((sequenceCtcLossWithLogits probs logitMask targets targetMask
        blank).perExampleProb.map
          (fun p : ℚ => if p = 0 then (0 : ℝ) else -Real.log p)).sum := by
  have hbounds : ∀ p ∈ (sequenceCtcLossWithLogits probs logitMask targets
      targetMask blank).perExampleProb, 0 ≤ p ∧ p ≤ 1 := by
    intro p hp
    simp only [sequenceCtcLossWithLogits] at hp
    rw [List.mem_map] at hp
    obtain ⟨b, hb, rfl⟩ := hp
    rw [List.mem_range] at hb
    have hexmem : probs.getD b [] ∈ probs := by
      rw [List.getD_eq_getElem _ _ hb]
      exact List.getElem_mem hb
    have hnn : ∀ row ∈ (probs.getD b []).take ((logitMask.getD b []).count true),
        ∀ x ∈ row, 0 ≤ x := fun row hrow =>
      (hdist _ hexmem row (List.mem_of_mem_take hrow)).1
    have hsum1 : ∀ row ∈ (probs.getD b []).take ((logitMask.getD b []).count true),
        row.sum = 1 := fun row hrow =>
      (hdist _ hexmem row (List.mem_of_mem_take hrow)).2.1
    have hlen : ∀ row ∈ (probs.getD b []).take ((logitMask.getD b []).count true),
        row.length =
          (((probs.getD b []).take ((logitMask.getD b []).count true)).headD []).length := by
      intro row hrow
      rw [headD_take _ _ _ (List.ne_nil_of_mem hrow)]
      exact (hdist _ hexmem row (List.mem_of_mem_take hrow)).2.2
    exact ⟨ctcProb_nonneg _ _ _ hnn, ctcProb_le_one _ _ _ hnn hlen hsum1⟩
  refine ⟨rfl, ?_, ?_⟩
  · intro p hp
    obtain ⟨h0, h1⟩ := hbounds p hp
    refine ⟨h0, h1, ?_⟩
    by_cases hz : p = 0
    · simp [hz]
    · rw [if_neg hz]
      have hlog : Real.log p ≤ 0 :=
        Real.log_nonpos (by exact_mod_cast h0) (by exact_mod_cast h1)
      linarith
  · apply List.sum_nonneg
    intro x hx
    obtain ⟨p, hp, rfl⟩ := List.mem_map.mp hx
    obtain ⟨h0, h1⟩ := hbounds p hp
    by_cases hz : p = 0
    · simp [hz]
    · rw [if_neg hz]
      have hlog : Real.log p ≤ 0 :=
        Real.log_nonpos (by exact_mod_cast h0) (by exact_mod_cast h1)
      linarith

/-- C7 witness: the theorem applied to a one-example batch with `T = 1`,
vocabulary `{0, 1}`, uniform distribution `[1/2, 1/2]`, target `[0]`,
`blank = 1`. -/
theorem C7_ctc_loss_zero_infinity_witness :
    0 ≤ ((sequenceCtcLossWithLogits [[[1 / 2, 1 / 2]]] [[true]] [[0]] [[true]]
        1).perExampleProb.map
          (fun p : ℚ => if p = 0 then (0 : ℝ) else -Real.log p)).sum :=
  (C7_ctc_loss_zero_infinity [[[1 / 2, 1 / 2]]] [[true]] [[0]] [[true]] 1
    (by
      intro ex hex row hrow
      simp only [List.mem_singleton] at hex
      subst hex
      simp only [List.mem_singleton] at hrow
      subst hrow
      refine ⟨?_, by norm_num, by norm_num⟩
      intro x hx
      simp only [List.mem_cons, List.mem_singleton, List.not_mem_nil, or_false] at hx
      rcases hx with h | h <;> (subst h; norm_num))).2.2

end DSLP
